import Mathlib

/-!
Shallow embedding of the incremental conversation-sync and message-normalization
core of the matrix-hostex-bridge repository
(pkg/connector/connector.go and pkg/hostexapi/client.go).

Go `time.Time` values are modelled as integers (seconds); `t1.After(t2)` is
`t2 < t1`.  The Go maps guarded by RW locks are modelled as association lists
with first-match lookup and in-place update, which matches map semantics
because keys are unique under `setEntry`.  Network effects (portal lookup,
detail fetch, attachment download, Matrix upload) are passed in as explicit
parameters, mirroring exactly what the code does with each outcome.
-/

namespace Hostex

/-- Association-list update modelling Go `m[k] = v`. -/
def setEntry {α : Type} (m : List (String × α)) (k : String) (v : α) : List (String × α) :=
  match m with
  | [] => [(k, v)]
  | (k2, v2) :: rest => if k2 == k then (k, v) :: rest else (k2, v2) :: setEntry rest k v

/-- Model of `hostexapi.Guest` (fields used by the sync engine). -/
structure Guest where
  name : String
deriving Repr, DecidableEq

/-- Model of `hostexapi.Conversation` (fields used by the sync engine). -/
structure Conversation where
  id : String
  lastMessageAt : Int
  guest : Guest
deriving Repr, DecidableEq

/-- A JSON value as seen through Go's `interface{}` after `json.Unmarshal`:
the attachment-field probing only distinguishes "string" from anything else
(`attachmentObj[field].(string)`). -/
inductive JValue where
  | jstr (s : String)
  | jother
deriving Repr, DecidableEq

/-- The `Attachment interface{}` field of `hostexapi.Message`: absent (`nil`),
a JSON object (re-marshalled and unmarshalled into `map[string]interface{}`),
a raw string, or some other JSON value (number, array, ...) for which both the
object parse and the string type-assertion fail. -/
inductive Attachment where
  | none
  | obj (fields : List (String × JValue))
  | str (s : String)
  | other
deriving Repr, DecidableEq

/-- Model of `hostexapi.Message` (fields used by the connector). -/
structure Message where
  id : String
  senderRole : String
  content : String
  attachment : Attachment
  createdAt : Int
deriving Repr, DecidableEq

/-- Model of `hostexapi.ActivityProperty` (field used by the connector). -/
structure ActivityProperty where
  title : String
deriving Repr, DecidableEq

/-- Model of `hostexapi.Activity` (field used by the connector). -/
structure Activity where
  property : ActivityProperty
deriving Repr, DecidableEq

/-- Model of `hostexapi.ConversationDetails` (fields used by the connector).
`messages` is the remote list, newest first. -/
structure ConversationDetails where
  guest : Guest
  activities : List Activity
  messages : List Message
deriving Repr, DecidableEq

/-- The four per-login maps of `HostexNetworkAPI`:
`guestNames`, `lastMessageTime` (the low-water marks),
`conversationLastMsgTime` (the activity markers) and `sentMessages`
(the echo-suppression cache). -/
structure SyncState where
  guestNames : List (String × String)
  lastMessageTime : List (String × Int)
  conversationLastMsgTime : List (String × Int)
  sentMessages : List (String × Int)
deriving Repr, DecidableEq

/-- A `SyncState` with all four maps empty (`LoadUserLogin`). -/
def initialState : SyncState := ⟨[], [], [], []⟩

/-- Echo-suppression test in `queueMessageEvent` (connector.go:691-705):
suppress iff the sender role is "host", the body is in `sentMessages`, and
`time.Since(sentTime) < 2*time.Minute` (120 seconds). -/
def shouldSuppress (sent : List (String × Int)) (now : Int) (msg : Message) : Bool :=
  msg.senderRole == "host" &&
    (match sent.lookup msg.content with
     | some sentTime => decide (now - sentTime < 120)
     | Option.none => false)

/-- Model of `HandleMatrixMessage` recording a sent body (connector.go:399-401). -/
def recordSent (s : SyncState) (body : String) (now : Int) : SyncState :=
  { s with sentMessages := setEntry s.sentMessages body now }

/-- Remote events queued by the connector via `QueueRemoteEvent`. -/
inductive Emitted where
  | roomCreate (convID : String) (name : String) (topic : String)
  | roomUpdate (convID : String) (name : String) (topic : String)
  | message (convID : String) (msg : Message)
deriving Repr, DecidableEq

/-- Model of `queueMessageEvent` (connector.go:689-1032): drop the message when echo
suppression fires, otherwise queue a message remote event. -/
def queueMessageEvent (sent : List (String × Int)) (now : Int)
    (convID : String) (msg : Message) : Option Emitted :=
  if shouldSuppress sent now msg then Option.none
  else some (Emitted.message convID msg)

/-- The message events among a list of emissions, tagged with conversation id. -/
def messageEmissions (ems : List Emitted) : List (String × Message) :=
  ems.filterMap (fun e =>
    match e with
    | .message cid m => some (cid, m)
    | _ => Option.none)

/-- Property-name resolution (connector.go:541-544): the first activity's
property title when non-empty, else "Unknown Property". -/
def propertyNameOf (details : ConversationDetails) : String :=
  match details.activities with
  | a :: _ => if a.property.title ≠ "" then a.property.title else "Unknown Property"
  | [] => "Unknown Property"

/-- Room display name (connector.go:550): `(property) - guest`. -/
def roomNameFor (details : ConversationDetails) (conv : Conversation) : String :=
  "(" ++ propertyNameOf details ++ ") - " ++ conv.guest.name

/-- One iteration of the existing-room message loop (connector.go:649-671):
track the latest timestamp seen, and queue the message when it is strictly
newer than the `lastProcessedTime` captured before the loop. -/
def existingStep (sent : List (String × Int)) (now : Int) (convID : String)
    (lastProcessedTime : Int) (acc : Int × List Emitted) (msg : Message) :
    Int × List Emitted :=
  let latest := if acc.1 < msg.createdAt then msg.createdAt else acc.1
  if lastProcessedTime < msg.createdAt then
    match queueMessageEvent sent now convID msg with
    | some e => (latest, acc.2 ++ [e])
    | Option.none => (latest, acc.2)
  else (latest, acc.2)

/-- The existing-room branch of `processConversation` (connector.go:594-686):
queue a metadata update, establish the low-water mark (baseline = oldest
message when absent), emit the messages newer than the mark oldest-to-newest
(the remote list is newest-first, iterated backwards), then advance the mark
to the latest timestamp seen. -/
def processExistingRoom (s : SyncState) (conv : Conversation) (details : ConversationDetails)
    (now : Int) (roomName : String) (topic : String) : SyncState × List Emitted :=
  let updateEvent := Emitted.roomUpdate conv.id roomName topic
  let firstSeen :=
    match s.lastMessageTime.lookup conv.id with
    | some t => (s, t)
    | Option.none =>
      match details.messages.getLast? with
      | some oldestMsg =>
        ({ s with lastMessageTime := setEntry s.lastMessageTime conv.id oldestMsg.createdAt },
          oldestMsg.createdAt)
      | Option.none => (s, 0)
  let s1 := firstSeen.1
  let lastProcessedTime := firstSeen.2
  let folded := details.messages.reverse.foldl
    (existingStep s.sentMessages now conv.id lastProcessedTime) (lastProcessedTime, [])
  let s2 :=
    if lastProcessedTime < folded.1 then
      { s1 with lastMessageTime := setEntry s1.lastMessageTime conv.id folded.1 }
    else s1
  (s2, updateEvent :: folded.2)

/-- Model of `processConversation` (connector.go:510-687).  `roomExists` models
`err == nil && portal != nil && portal.MXID != ""`; `detail` models the
outcome of `GetConversationDetails` (`none` = fetch failed, logged and the
conversation skipped).  On success the guest name is cached, then either the
room-creation/backfill branch or the existing-room branch runs. -/
def processConversation (s : SyncState) (conv : Conversation) (roomExists : Bool)
    (detail : Option ConversationDetails) (now : Int) : SyncState × List Emitted :=
  match detail with
  | Option.none => (s, [])
  | some details =>
    let propertyName := propertyNameOf details
    let s0 := { s with guestNames := setEntry s.guestNames conv.id conv.guest.name }
    let roomName := roomNameFor details conv
    if roomExists then
      processExistingRoom s0 conv details now roomName propertyName
    else
      let createEvent := Emitted.roomCreate conv.id roomName propertyName
      let ems := details.messages.reverse.filterMap (queueMessageEvent s.sentMessages now conv.id)
      (s0, createEvent :: ems)

/-- The cheap-skip test of `syncConversations` (connector.go:479-492):
skip when a cached activity timestamp exists and the conversation's
`LastMessageAt` has not advanced past it. -/
def skipConversation (s : SyncState) (conv : Conversation) : Bool :=
  match s.conversationLastMsgTime.lookup conv.id with
  | some cached => !(decide (cached < conv.lastMessageAt))
  | Option.none => false

/-- The environment-dependent inputs of one `syncConversations` iteration for
one conversation: the listed conversation, whether a portal with a Matrix room
already exists, the detail-fetch outcome, and the wall-clock time used by echo
suppression. -/
structure StepInput where
  conv : Conversation
  roomExists : Bool
  detail : Option ConversationDetails
  now : Int
deriving Repr, DecidableEq

/-- One iteration of the `syncConversations` loop (connector.go:477-507) for a
single conversation: either skip (no fetch, no mutation), or advance the
activity marker and run `processConversation` (which performs exactly one
detail fetch).  The `Nat` counts detail fetches. -/
def syncStep (s : SyncState) (inp : StepInput) : SyncState × List Emitted × Nat :=
  if skipConversation s inp.conv then (s, [], 0)
  else
    let s1 := { s with
      conversationLastMsgTime := setEntry s.conversationLastMsgTime inp.conv.id inp.conv.lastMessageAt }
    let pc := processConversation s1 inp.conv inp.roomExists inp.detail inp.now
    (pc.1, pc.2, 1)

/-- A sequence of `syncStep`s (the rest of one poll cycle, or several poll
cycles), accumulating emissions and detail-fetch counts. -/
def runSteps (s : SyncState) : List StepInput → SyncState × List Emitted × Nat
  | [] => (s, [], 0)
  | inp :: rest =>
    let st := syncStep s inp
    let rec' := runSteps st.1 rest
    (rec'.1, st.2.1 ++ rec'.2.1, st.2.2 + rec'.2.2)

/-- Model of `handleRefreshCommand` (connector.go:1129-1144): the manual refresh clears
the activity-marker cache before re-running the sync. -/
def clearActivityCache (s : SyncState) : SyncState :=
  { s with conversationLastMsgTime := [] }

/-! ### Message/attachment normalizer (`ConvertMessageFunc`, connector.go:742-1027) -/

/-- Matrix message types used by the converter. -/
inductive MsgType where
  | text
  | image
  | file
deriving Repr, DecidableEq

/-- One `ConvertedMessagePart`.  `uploadMime` records the MIME type passed to
`intent.UploadMedia` for media parts (the delivered part's type). -/
structure Part where
  msgType : MsgType
  body : String
  url : Option String
  uploadMime : Option String
deriving Repr, DecidableEq

/-- A plain text part. -/
def textPart (b : String) : Part := ⟨MsgType.text, b, Option.none, Option.none⟩

/-- Outcome of `http.Get` plus `io.ReadAll` on an attachment URL:
request error, body-read error, or a body with the response's Content-Type. -/
inductive DownloadResult where
  | fail
  | readFail
  | ok (contentType : String)
deriving Repr, DecidableEq

/-- Outcome of `intent.UploadMedia` (given filename and MIME type):
error, empty mxc URL, or an mxc URL. -/
inductive UploadResult where
  | fail (errMsg : String)
  | emptyURL
  | ok (mxc : String)
deriving Repr, DecidableEq

/-- Char-list prefix test (kernel-computable helper for the string scanning
below). -/
def charsStartWith : List Char → List Char → Bool
  | [], _ => true
  | _ :: _, [] => false
  | p :: ps, c :: cs => p == c && charsStartWith ps cs

/-- Char-list substring occurrence test. -/
def charsContain (pat : List Char) : List Char → Bool
  | [] => pat.isEmpty
  | c :: rest => charsStartWith pat (c :: rest) || charsContain pat rest

/-- Model of `strings.Contains`. -/
def strContains (s pat : String) : Bool := charsContain pat.data s.data

/-- Model of `strings.HasPrefix`. -/
def strStartsWith (s pat : String) : Bool := charsStartWith pat.data s.data

/-- Split a char list around each leftmost non-overlapping occurrence of a
non-empty separator; the fuel (any bound above the subject length) keeps the
recursion structural so concrete values compute in the kernel. -/
def splitAux (sep : List Char) : Nat → List Char → List (List Char)
  | 0, s => [s]
  | fuel + 1, s =>
    match s with
    | [] => [[]]
    | c :: rest =>
      if sep ≠ [] && charsStartWith sep s then
        [] :: splitAux sep fuel (s.drop sep.length)
      else
        match splitAux sep fuel rest with
        | [] => [[c]]
        | seg :: segs => (c :: seg) :: segs

/-- Model of `strings.Split` for a non-empty separator. -/
def strSplitOn (s sep : String) : List String :=
  (splitAux sep.data (s.data.length + 1) s.data).map String.mk

/-- URL-bearing field names probed in priority order (connector.go:773). -/
def urlFields : List String := ["fullback_url", "url", "URL", "src", "href", "link"]

/-- Filename field names probed in order (connector.go:783). -/
def nameFields : List String := ["filename", "name", "title"]

/-- MIME-type field names probed in order (connector.go:826). -/
def typeFields : List String := ["type", "mime_type", "mimeType", "content_type"]

/-- The field-probing loops of `ConvertMessageFunc`: the first key whose value
is present, is a string, and is non-empty. -/
def firstNonEmptyStringField (o : List (String × JValue)) : List String → Option String
  | [] => Option.none
  | k :: rest =>
    match o.lookup k with
    | some (JValue.jstr s) => if s ≠ "" then some s else firstNonEmptyStringField o rest
    | _ => firstNonEmptyStringField o rest

/-- The text after the last "/" of a URL (`strings.LastIndex` + slicing,
connector.go:792-793); `none` when the URL has no "/". -/
def afterLastSlash (url : String) : Option String :=
  let segs := strSplitOn url "/"
  if 2 ≤ segs.length then some (segs.getLastD "") else Option.none

/-- Deriving a filename from the URL's final path segment, stripping query
parameters (connector.go:791-803).  Returns "attachment" when nothing applies,
matching the initial value of `filename`. -/
def deriveFilenameStep1 (url : String) : String :=
  match afterLastSlash url with
  | Option.none => "attachment"
  | some urlFilename =>
    if urlFilename ≠ "" && !(strContains urlFilename "?") then urlFilename
    else if strContains urlFilename "?" then (strSplitOn urlFilename "?").headD ""
    else "attachment"

/-- The bare size tokens recognized by the converter (connector.go:804). -/
def sizeTokens : List String := ["xlarge", "large", "medium", "small"]

/-- The size-token fixup (connector.go:804-822): when the derived name is a
bare size token and the URL contains ".jpeg/" or ".jpg/", walk the path
segments backwards (skipping the last) for one containing a dot; if the name
is still a size token afterwards, substitute "image.jpg". -/
def sizeTokenFixup (attachmentURL : String) (filename : String) : String :=
  if sizeTokens.contains filename then
    let f1 :=
      if strContains attachmentURL ".jpeg/" || strContains attachmentURL ".jpg/" then
        match (strSplitOn attachmentURL "/").dropLast.reverse.find? (fun p => p.data.contains '.') with
        | some seg => seg
        | Option.none => filename
      else filename
    if sizeTokens.contains f1 then "image.jpg" else f1
  else filename

/-- Full filename resolution for a structured attachment
(connector.go:781-823): explicit filename/name/title field first, else derive
from the URL and apply the size-token fixup. -/
def objFilename (o : List (String × JValue)) (attachmentURL : String) : String :=
  let filename0 :=
    match firstNonEmptyStringField o nameFields with
    | some n => n
    | Option.none => "attachment"
  if filename0 == "attachment" && attachmentURL ≠ "" then
    sizeTokenFixup attachmentURL (deriveFilenameStep1 attachmentURL)
  else filename0

/-- MIME type from the structured attachment's explicit type fields
(connector.go:826-836), mapping the generic "image" tag to "image/jpeg";
"" when no field is present (the initial value of `mimeType`). -/
def explicitMime (o : List (String × JValue)) : String :=
  match firstNonEmptyStringField o typeFields with
  | some t => if t == "image" then "image/jpeg" else t
  | Option.none => ""

/-- The structured-attachment path of `ConvertMessageFunc`
(connector.go:768-916): probe for a URL; when found, resolve filename and
explicit MIME type, download, override the MIME type with a non-empty response
Content-Type (else default to "application/octet-stream" when still empty),
and upload; every failure degrades to a text part carrying the URL and a short
annotation. -/
def objAttachmentParts (download : String → DownloadResult)
    (upload : String → String → UploadResult) (o : List (String × JValue)) : List Part :=
  match firstNonEmptyStringField o urlFields with
  | Option.none => []
  | some attachmentURL =>
    let filename := objFilename o attachmentURL
    match download attachmentURL with
    | DownloadResult.fail =>
      [textPart ("📎 " ++ filename ++ ": " ++ attachmentURL ++ " (download failed)")]
    | DownloadResult.readFail =>
      [textPart ("📎 " ++ filename ++ ": " ++ attachmentURL ++ " (read failed)")]
    | DownloadResult.ok contentType =>
      let mimeType :=
        if contentType ≠ "" then contentType
        else if explicitMime o == "" then "application/octet-stream"
        else explicitMime o
      let msgType := if strStartsWith mimeType "image/" then MsgType.image else MsgType.file
      match upload filename mimeType with
      | UploadResult.fail err =>
        [textPart ("📎 " ++ filename ++ ": " ++ attachmentURL ++ " (upload failed: " ++ err ++ ")")]
      | UploadResult.emptyURL =>
        [textPart ("📎 " ++ filename ++ ": " ++ attachmentURL ++ " (Matrix upload returned empty URL)")]
      | UploadResult.ok mxc => [⟨msgType, filename, some mxc, some mimeType⟩]

/-- The raw-string-attachment path of `ConvertMessageFunc`
(connector.go:919-1008): download the string as a URL, take the MIME type from
the response Content-Type (default "application/octet-stream"), pick message
type and a generic filename from the MIME type, and upload; failures degrade
to text parts. -/
def stringAttachmentParts (download : String → DownloadResult)
    (upload : String → String → UploadResult) (attachmentStr : String) : List Part :=
  match download attachmentStr with
  | DownloadResult.fail =>
    [textPart ("📎 Image: " ++ attachmentStr ++ " (download failed)")]
  | DownloadResult.readFail =>
    [textPart ("📎 Image: " ++ attachmentStr ++ " (read failed)")]
  | DownloadResult.ok contentType =>
    let mimeType := if contentType == "" then "application/octet-stream" else contentType
    let filename :=
      if strStartsWith mimeType "image/" then
        if mimeType == "image/jpeg" then "image.jpg"
        else if mimeType == "image/png" then "image.png"
        else if mimeType == "image/gif" then "image.gif"
        else if mimeType == "image/webp" then "image.webp"
        else "image"
      else "attachment"
    let msgType := if strStartsWith mimeType "image/" then MsgType.image else MsgType.file
    match upload filename mimeType with
    | UploadResult.fail err =>
      [textPart ("📎 " ++ filename ++ ": " ++ attachmentStr ++ " (upload failed: " ++ err ++ ")")]
    | UploadResult.emptyURL =>
      [textPart ("📎 " ++ filename ++ ": " ++ attachmentStr ++ " (Matrix upload returned empty URL)")]
    | UploadResult.ok mxc => [⟨msgType, filename, some mxc, some mimeType⟩]

/-- Model of `ConvertMessageFunc` (connector.go:742-1027): a text part for a non-empty
body, then the attachment parts (the object parse runs first; the raw-string
path only fires when the attachment actually is a string, since a parsed
object never passes the string type-assertion), and the "(Empty message)"
placeholder when no part was produced.  The function always returns
`Except.ok` (the Go closure never returns a non-nil error). -/
def convertMessage (download : String → DownloadResult)
    (upload : String → String → UploadResult) (msg : Message) : Except String (List Part) :=
  let textParts := if msg.content ≠ "" then [textPart msg.content] else []
  let attParts :=
    match msg.attachment with
    | Attachment.none => []
    | Attachment.obj o => objAttachmentParts download upload o
    | Attachment.str s => if s ≠ "" then stringAttachmentParts download upload s else []
    | Attachment.other => []
  let parts := textParts ++ attParts
  Except.ok (if parts.isEmpty then [textPart "(Empty message)"] else parts)

/-- "attachment absent, unrecognized, or carrying no non-empty URL-bearing
field": the cases in which the converter produces no attachment part. -/
def noResolvableAttachment : Attachment → Bool
  | Attachment.none => true
  | Attachment.other => true
  | Attachment.obj o =>
    match firstNonEmptyStringField o urlFields with
    | Option.none => true
    | some _ => false
  | Attachment.str s => s == ""

/-! ### Remote API client (`hostexapi/client.go`) -/

/-- ASCII digit character for a decimal digit. -/
def digitToChar (d : Nat) : Char := Char.ofNat (48 + d)

/-- Decimal digits of `n`, least significant first, with explicit fuel
(`fuel > n` suffices, and `natDigitsRev` supplies it). -/
def natDigitsRevAux : Nat → Nat → List Nat
  | 0, _ => []
  | fuel + 1, n => if n < 10 then [n] else n % 10 :: natDigitsRevAux fuel (n / 10)

/-- Decimal digits of `n`, least significant first. -/
def natDigitsRev (n : Nat) : List Nat := natDigitsRevAux (n + 1) n

/-- Decimal rendering of a natural number. -/
def natDecimal (n : Nat) : String := ((natDigitsRev n).reverse.map digitToChar).asString

/-- Decimal rendering of an integer: this embeds Go's
`fmt.Sprintf("%v", apiResp.ErrorCode)` for an integer-valued numeric error
code (JSON numbers are decoded into `float64`, and `%v` renders an
integer-valued `float64` as its plain decimal digits). -/
def intDecimal : Int → String
  | Int.ofNat m => natDecimal m
  | Int.negSucc m => "-" ++ natDecimal (m + 1)

/-- The envelope's `error_code` field, observed both numeric and string
(`ErrorCode interface{}` in `hostexapi.APIResponse`). -/
inductive ErrorCode where
  | num (n : Int)
  | str (s : String)
deriving Repr, DecidableEq

/-- The uniform JSON envelope `hostexapi.APIResponse` (the `data` payload is
irrelevant to error classification). -/
structure APIResponse where
  requestID : String
  errorCode : Option ErrorCode
  errorMsg : String
deriving Repr, DecidableEq

/-- Go's `apiResp.ErrorCode != ""` on the `interface{}` value: an interface
holding a number is never equal to the string `""`, so only a string value can
fail this test. -/
def errorCodeNonEmpty : ErrorCode → Bool
  | ErrorCode.num _ => true
  | ErrorCode.str s => s ≠ ""

/-- Model of `fmt.Sprintf("%v", apiResp.ErrorCode)` (client.go:125). -/
def errorCodeStr : ErrorCode → String
  | ErrorCode.num n => intDecimal n
  | ErrorCode.str s => s

/-- The failure classes `doRequest` can return: request creation/execution
failures and JSON-decode failures (wrapped transport-level errors), and the
semantic API error carrying the envelope's code and message. -/
inductive RequestError where
  | transport (msg : String)
  | decode (msg : String)
  | apiError (code : ErrorCode) (msg : String)
deriving Repr, DecidableEq

/-- The environment-dependent outcome of the HTTP round trip in `doRequest`:
the request failed, the response body failed to decode as JSON, or an envelope
was decoded. -/
inductive TransportOutcome where
  | transportFail (msg : String)
  | decodeFail (msg : String)
  | response (resp : APIResponse)
deriving Repr, DecidableEq

/-- Model of `doRequest` (client.go:91-132): transport and decode failures are returned
as wrapped errors; a decoded envelope is a semantic API error exactly when
`ErrorCode != nil && ErrorCode != ""` and `fmt.Sprintf("%v", ErrorCode)` is
not `"200"`. -/
def doRequest (outcome : TransportOutcome) : Except RequestError APIResponse :=
  match outcome with
  | TransportOutcome.transportFail m => Except.error (RequestError.transport m)
  | TransportOutcome.decodeFail m => Except.error (RequestError.decode m)
  | TransportOutcome.response resp =>
    match resp.errorCode with
    | some code =>
      if errorCodeNonEmpty code && errorCodeStr code ≠ "200" then
        Except.error (RequestError.apiError code resp.errorMsg)
      else Except.ok resp
    | Option.none => Except.ok resp

/-- The claim's classification of a semantic failure: the error code is
present, non-empty, and not the canonical success code 200 (numeric `200` and
string `"200"` both count as success).  Stated independently of the code's
string-rendering so the theorem compares the two. -/
def claimSemanticFailureCode : ErrorCode → Bool
  | ErrorCode.num n => decide (n ≠ 200)
  | ErrorCode.str s => s ≠ "" && s ≠ "200"

/-- Value of a digit list, least significant digit first (proof helper for the
decimal rendering). -/
def ofDigitsRev : List Nat → Nat
  | [] => 0
  | d :: ds => d + 10 * ofDigitsRev ds

/-! ### Concrete sample inputs used by witnesses and counterexamples -/

/-- A text message with the given id, role, content and timestamp. -/
def mkMsg (i role content : String) (ts : Int) : Message :=
  ⟨i, role, content, Attachment.none, ts⟩

def guestAlice : Guest := ⟨"Alice"⟩

/-- A conversation whose most recent activity is at time 20. -/
def convA : Conversation := ⟨"c1", 20, guestAlice⟩

/-- Detail with a single message (timestamp 10). -/
def detailOne : ConversationDetails :=
  ⟨guestAlice, [⟨⟨"Beach House"⟩⟩], [mkMsg "m1" "guest" "hello" 10]⟩

/-- Detail with two messages, newest first (timestamps 20, 10). -/
def detailTwo : ConversationDetails :=
  ⟨guestAlice, [⟨⟨"Beach House"⟩⟩],
    [mkMsg "m2" "guest" "second" 20, mkMsg "m1" "guest" "first" 10]⟩

/-- A state whose low-water mark for "c1" is 10 and whose other maps are
empty. -/
def stateWithMark : SyncState := ⟨[], [("c1", 10)], [], []⟩

/-- A state whose activity marker for "c1" is 20 and whose other maps are
empty. -/
def stateCached : SyncState := ⟨[], [], [("c1", 20)], []⟩

/-- A sync-step input whose detail fetch fails. -/
def inpDetailFail : StepInput := ⟨convA, true, Option.none, 0⟩

/-- A sync-step input for an existing room with a successful detail fetch. -/
def inpNormal : StepInput := ⟨convA, true, some detailTwo, 0⟩

/-- Download oracle: every download fails. -/
def dlFail : String → DownloadResult := fun _ => DownloadResult.fail

/-- Download oracle: every download succeeds with Content-Type image/jpeg. -/
def dlJpeg : String → DownloadResult := fun _ => DownloadResult.ok "image/jpeg"

/-- Upload oracle: every upload succeeds. -/
def upOk : String → String → UploadResult := fun _ _ => UploadResult.ok "mxc://example/media1"

/-- A structured attachment with an explicit type field ("image/png") and a
URL. -/
def objPng : List (String × JValue) :=
  [("type", JValue.jstr "image/png"), ("url", JValue.jstr "https://cdn.example.com/files/a.bin")]

/-- A structured attachment whose URL ends in a size token one segment after a
".png" filename, with no explicit filename field. -/
def objPngSized : List (String × JValue) :=
  [("url", JValue.jstr "https://img.example.com/photos/photo.png/xlarge")]

/-- A structured attachment whose URL ends in a size token one segment after a
".jpg" filename, with no explicit filename field. -/
def objJpgSized : List (String × JValue) :=
  [("url", JValue.jstr "https://img.example.com/photos/photo.jpg/xlarge")]

/-- A message with empty body and a structured attachment carrying no
URL-bearing field. -/
def msgNoParts : Message :=
  ⟨"m0", "guest", "", Attachment.obj [("caption", JValue.jstr "hi")], 5⟩

/-- A host-authored message with body "hi". -/
def msgHostHi : Message := mkMsg "m9" "host" "hi" 50

/-- An envelope whose error code is numeric 404. -/
def resp404 : APIResponse := ⟨"r1", some (ErrorCode.num 404), "Not Found"⟩

/-! ## Map lemmas -/

theorem lookup_setEntry_self {α : Type} (m : List (String × α)) (k : String) (v : α) :
    (setEntry m k v).lookup k = some v := by
  induction m with
  | nil => simp [setEntry, List.lookup]
  | cons h t ih =>
    obtain ⟨k2, v2⟩ := h
    by_cases hk : k2 = k
    · subst hk; simp [setEntry, List.lookup]
    · simp only [setEntry, beq_iff_eq, hk, if_false, List.lookup]
      have : (k == k2) = false := by simp [beq_iff_eq]; exact fun h2 => hk h2.symm
      simp [this, ih]

theorem lookup_setEntry_ne {α : Type} (m : List (String × α)) (k k2 : String) (v : α)
    (h : k2 ≠ k) : (setEntry m k v).lookup k2 = m.lookup k2 := by
  have hbe : (k2 == k) = false := by simp [beq_iff_eq]; exact h
  induction m with
  | nil => simp [setEntry, List.lookup, hbe]
  | cons hd t ih =>
    obtain ⟨k3, v3⟩ := hd
    by_cases hk : k3 = k
    · subst hk
      simp [setEntry, List.lookup, hbe]
    · simp only [setEntry, beq_iff_eq, hk, if_false, List.lookup]
      by_cases hk2 : k2 = k3
      · simp [beq_iff_eq, hk2]
      · simp [beq_iff_eq, hk2, ih]

/-! ## Echo-suppression and emission lemmas -/

theorem queueMessageEvent_nil_sent (now : Int) (cid : String) (msg : Message) :
    queueMessageEvent [] now cid msg = some (Emitted.message cid msg) := by
  simp [queueMessageEvent, shouldSuppress, List.lookup]

theorem queueMessageEvent_cases (sent : List (String × Int)) (now : Int)
    (cid : String) (msg : Message) :
    queueMessageEvent sent now cid msg = some (Emitted.message cid msg) ∨
    queueMessageEvent sent now cid msg = Option.none := by
  by_cases h : shouldSuppress sent now msg <;> simp [queueMessageEvent, h]

theorem filterMap_queue_nil_sent (now : Int) (cid : String) (l : List Message) :
    l.filterMap (queueMessageEvent [] now cid) = l.map (Emitted.message cid) := by
  induction l with
  | nil => rfl
  | cons x t ih => simp [List.filterMap_cons, queueMessageEvent_nil_sent, ih]

theorem messageEmissions_nil : messageEmissions [] = [] := rfl

theorem messageEmissions_roomCreate_cons (cid n tp : String) (ems : List Emitted) :
    messageEmissions (Emitted.roomCreate cid n tp :: ems) = messageEmissions ems := by
  simp [messageEmissions, List.filterMap_cons]

theorem messageEmissions_roomUpdate_cons (cid n tp : String) (ems : List Emitted) :
    messageEmissions (Emitted.roomUpdate cid n tp :: ems) = messageEmissions ems := by
  simp [messageEmissions, List.filterMap_cons]

theorem messageEmissions_message_cons (cid : String) (m : Message) (ems : List Emitted) :
    messageEmissions (Emitted.message cid m :: ems) = (cid, m) :: messageEmissions ems := by
  simp [messageEmissions, List.filterMap_cons]

theorem messageEmissions_map_message (cid : String) (l : List Message) :
    messageEmissions (l.map (Emitted.message cid)) = l.map (fun m => (cid, m)) := by
  induction l with
  | nil => rfl
  | cons x t ih => simp [messageEmissions_message_cons, ih]

theorem mem_messageEmissions (ems : List Emitted) (cid : String) (m : Message) :
    (cid, m) ∈ messageEmissions ems ↔ Emitted.message cid m ∈ ems := by
  induction ems with
  | nil => simp [messageEmissions]
  | cons e t ih =>
    cases e with
    | roomCreate a b c => simp [messageEmissions_roomCreate_cons, ih]
    | roomUpdate a b c => simp [messageEmissions_roomUpdate_cons, ih]
    | message a b =>
      simp only [messageEmissions_message_cons, List.mem_cons, ih, Prod.mk.injEq,
        Emitted.message.injEq]

/-! ## Fold lemmas for the existing-room message loop -/

theorem existingFold_nil_sent (now : Int) (cid : String) (m : Int)
    (l : List Message) : ∀ (acc : Int) (ems : List Emitted),
    l.foldl (existingStep [] now cid m) (acc, ems) =
      (l.foldl (fun a x => if a < x.createdAt then x.createdAt else a) acc,
       ems ++ (l.filter (fun x => decide (m < x.createdAt))).map (Emitted.message cid)) := by
  induction l with
  | nil => intro acc ems; simp
  | cons x t ih =>
    intro acc ems
    simp only [List.foldl_cons, List.filter_cons]
    by_cases h : m < x.createdAt
    · have hstep : existingStep [] now cid m (acc, ems) x =
          ((if acc < x.createdAt then x.createdAt else acc), ems ++ [Emitted.message cid x]) := by
        simp [existingStep, h, queueMessageEvent_nil_sent]
      rw [hstep, ih]
      simp [h]
    · have hstep : existingStep [] now cid m (acc, ems) x =
          ((if acc < x.createdAt then x.createdAt else acc), ems) := by
        simp [existingStep, h]
      rw [hstep, ih]
      simp [h]

theorem existingFold_mem (sent : List (String × Int)) (now : Int) (cid : String)
    (m : Int) (l : List Message) : ∀ (acc : Int) (ems : List Emitted) (e : Emitted),
    e ∈ (l.foldl (existingStep sent now cid m) (acc, ems)).2 →
    e ∈ ems ∨ ∃ x, x ∈ l ∧ m < x.createdAt ∧ e = Emitted.message cid x := by
  induction l with
  | nil => intro acc ems e he; exact Or.inl (by simpa using he)
  | cons x t ih =>
    intro acc ems e he
    simp only [List.foldl_cons] at he
    by_cases h : m < x.createdAt
    · rcases queueMessageEvent_cases sent now cid x with hq | hq
      · have hstep : existingStep sent now cid m (acc, ems) x =
            ((if acc < x.createdAt then x.createdAt else acc), ems ++ [Emitted.message cid x]) := by
          simp [existingStep, h, hq]
        rw [hstep] at he
        rcases ih _ _ _ he with h1 | ⟨y, hy, hmy, hey⟩
        · rcases List.mem_append.1 h1 with h2 | h2
          · exact Or.inl h2
          · simp only [List.mem_singleton] at h2
            exact Or.inr ⟨x, by simp, h, h2⟩
        · exact Or.inr ⟨y, by simp [hy], hmy, hey⟩
      · have hstep : existingStep sent now cid m (acc, ems) x =
            ((if acc < x.createdAt then x.createdAt else acc), ems) := by
          simp [existingStep, h, hq]
        rw [hstep] at he
        rcases ih _ _ _ he with h1 | ⟨y, hy, hmy, hey⟩
        · exact Or.inl h1
        · exact Or.inr ⟨y, by simp [hy], hmy, hey⟩
    · have hstep : existingStep sent now cid m (acc, ems) x =
          ((if acc < x.createdAt then x.createdAt else acc), ems) := by
        simp [existingStep, h]
      rw [hstep] at he
      rcases ih _ _ _ he with h1 | ⟨y, hy, hmy, hey⟩
      · exact Or.inl h1
      · exact Or.inr ⟨y, by simp [hy], hmy, hey⟩

theorem foldLatest_init_le (l : List Message) : ∀ acc : Int,
    acc ≤ l.foldl (fun a x => if a < x.createdAt then x.createdAt else a) acc := by
  induction l with
  | nil => intro acc; simp
  | cons x t ih =>
    intro acc
    simp only [List.foldl_cons]
    have hstep : acc ≤ (if acc < x.createdAt then x.createdAt else acc) := by
      split <;> omega
    exact le_trans hstep (ih _)

theorem foldLatest_mem_le (l : List Message) : ∀ (acc : Int) (x : Message), x ∈ l →
    x.createdAt ≤ l.foldl (fun a x => if a < x.createdAt then x.createdAt else a) acc := by
  induction l with
  | nil => intro _ x hx; simp at hx
  | cons y t ih =>
    intro acc x hx
    simp only [List.foldl_cons]
    rcases List.mem_cons.1 hx with rfl | hx2
    · have hstep : x.createdAt ≤ (if acc < x.createdAt then x.createdAt else acc) := by
        split <;> omega
      exact le_trans hstep (foldLatest_init_le t _)
    · exact ih _ _ hx2

theorem foldLatest_cases (l : List Message) : ∀ acc : Int,
    l.foldl (fun a x => if a < x.createdAt then x.createdAt else a) acc = acc ∨
    ∃ x, x ∈ l ∧
      l.foldl (fun a x => if a < x.createdAt then x.createdAt else a) acc = x.createdAt := by
  induction l with
  | nil => intro acc; exact Or.inl rfl
  | cons y t ih =>
    intro acc
    simp only [List.foldl_cons]
    rcases ih (if acc < y.createdAt then y.createdAt else acc) with h | ⟨x, hx, hfx⟩
    · rw [h]; split
      · exact Or.inr ⟨y, by simp, rfl⟩
      · exact Or.inl rfl
    · exact Or.inr ⟨x, by simp [hx], hfx⟩

theorem pairwise_desc_head_le (m0 : Message) (rest : List Message)
    (hd : (m0 :: rest).Pairwise (fun a b => b.createdAt < a.createdAt)) :
    ∀ x ∈ m0 :: rest, x.createdAt ≤ m0.createdAt := by
  intro x hx
  rcases List.mem_cons.1 hx with rfl | hx2
  · exact le_refl _
  · have h2 : x.createdAt < m0.createdAt := (List.pairwise_cons.1 hd).1 x hx2
    omega

/-! ## Frame lemmas for the sync engine -/

theorem processExistingRoom_frame (s : SyncState) (conv : Conversation)
    (details : ConversationDetails) (now : Int) (rn tp : String) :
    (processExistingRoom s conv details now rn tp).1.conversationLastMsgTime =
      s.conversationLastMsgTime ∧
    (processExistingRoom s conv details now rn tp).1.sentMessages = s.sentMessages ∧
    (processExistingRoom s conv details now rn tp).1.guestNames = s.guestNames := by
  unfold processExistingRoom
  cases hl : s.lastMessageTime.lookup conv.id with
  | some t => dsimp only; split <;> simp
  | none =>
    cases hg : details.messages.getLast? with
    | some om => dsimp only; split <;> simp
    | none => dsimp only; split <;> simp

theorem processConversation_frame (s : SyncState) (conv : Conversation) (re : Bool)
    (detail : Option ConversationDetails) (now : Int) :
    (processConversation s conv re detail now).1.conversationLastMsgTime =
      s.conversationLastMsgTime ∧
    (processConversation s conv re detail now).1.sentMessages = s.sentMessages := by
  cases detail with
  | none => exact ⟨rfl, rfl⟩
  | some d =>
    cases re with
    | false => simp [processConversation]
    | true =>
      have h := processExistingRoom_frame
        { s with guestNames := setEntry s.guestNames conv.id conv.guest.name }
        conv d now (roomNameFor d conv) (propertyNameOf d)
      simp only [processConversation]
      exact ⟨h.1, h.2.1⟩

theorem syncStep_skip (s : SyncState) (inp : StepInput) (cached : Int)
    (h1 : s.conversationLastMsgTime.lookup inp.conv.id = some cached)
    (h2 : ¬ cached < inp.conv.lastMessageAt) :
    syncStep s inp = (s, [], 0) := by
  have hs : skipConversation s inp.conv = true := by simp [skipConversation, h1, h2]
  simp [syncStep, hs]

theorem syncStep_noskip_state (s : SyncState) (inp : StepInput)
    (hs : skipConversation s inp.conv = false) :
    (syncStep s inp).1.conversationLastMsgTime =
      setEntry s.conversationLastMsgTime inp.conv.id inp.conv.lastMessageAt := by
  simp only [syncStep, hs, Bool.false_eq_true, if_false]
  exact (processConversation_frame _ _ _ _ _).1

theorem syncStep_cache_after (s : SyncState) (inp : StepInput) :
    ∃ c, (syncStep s inp).1.conversationLastMsgTime.lookup inp.conv.id = some c ∧
      inp.conv.lastMessageAt ≤ c := by
  cases hs : skipConversation s inp.conv with
  | true =>
    have heq : syncStep s inp = (s, [], 0) := by simp [syncStep, hs]
    rw [heq]
    unfold skipConversation at hs
    cases hl : s.conversationLastMsgTime.lookup inp.conv.id with
    | none => rw [hl] at hs; simp at hs
    | some cached =>
      rw [hl] at hs
      simp only [Bool.not_eq_true', decide_eq_false_iff_not, not_lt] at hs
      exact ⟨cached, rfl, by simpa using hs⟩
  | false =>
    rw [syncStep_noskip_state s inp hs, lookup_setEntry_self]
    exact ⟨inp.conv.lastMessageAt, rfl, le_refl _⟩

/-! ## Claim C3 -/

/-- C3: a conversation whose activity timestamp has not advanced past the
cached value is skipped entirely by the sync step — no detail fetch and no
state mutation at all (in particular none of the low-water-mark map, the
activity-marker map, or the guest-name cache changes) — and two consecutive
sync steps for a conversation with an unchanged activity timestamp perform
zero detail fetches (and no mutation) on the second step. -/
theorem c3_cheap_skip :
    (∀ (s : SyncState) (inp : StepInput) (cached : Int),
      s.conversationLastMsgTime.lookup inp.conv.id = some cached →
      ¬ cached < inp.conv.lastMessageAt →
      syncStep s inp = (s, [], 0)) ∧
    (∀ (s : SyncState) (inp inp2 : StepInput),
      inp2.conv.id = inp.conv.id →
      inp2.conv.lastMessageAt = inp.conv.lastMessageAt →
      syncStep (syncStep s inp).1 inp2 = ((syncStep s inp).1, [], 0)) := by
  constructor
  · intro s inp cached h1 h2
    exact syncStep_skip s inp cached h1 h2
  · intro s inp inp2 hid hts
    obtain ⟨c, hc, hle⟩ := syncStep_cache_after s inp
    refine syncStep_skip _ _ c ?_ ?_
    · rw [hid]; exact hc
    · rw [hts]; omega

/-- Witness for C3 at a concrete cached state and conversation. -/
theorem c3_witness : syncStep stateCached inpNormal = (stateCached, [], 0) :=
  c3_cheap_skip.1 stateCached inpNormal 20 rfl (by decide)

/-! ## Claim C4 -/

/-- C4: a message is suppressed (queued as no event) iff its sender role is
"host", its body was recorded as locally sent, and the time since that
recording is strictly less than 2 minutes (120 s); a guest-role message is
never suppressed; an identical host-role body at or after the window is
emitted normally; and `recordSent` makes the body's recording visible to the
lookup. -/
theorem c4_echo_suppression (sent : List (String × Int)) (now : Int) (cid : String)
    (msg : Message) :
    (queueMessageEvent sent now cid msg = Option.none ↔
      msg.senderRole = "host" ∧ ∃ t, sent.lookup msg.content = some t ∧ now - t < 120) ∧
    (msg.senderRole ≠ "host" →
      queueMessageEvent sent now cid msg = some (Emitted.message cid msg)) ∧
    (∀ t, sent.lookup msg.content = some t → 120 ≤ now - t →
      queueMessageEvent sent now cid msg = some (Emitted.message cid msg)) ∧
    (∀ (s : SyncState) (body : String) (tr : Int),
      (recordSent s body tr).sentMessages.lookup body = some tr) := by
  refine ⟨⟨?_, ?_⟩, ?_, ?_, ?_⟩
  · intro h
    by_cases hr : msg.senderRole = "host"
    · cases hl : sent.lookup msg.content with
      | none =>
        have hbe : (msg.senderRole == "host") = true := by simp [beq_iff_eq, hr]
        simp [queueMessageEvent, shouldSuppress, hbe, hl] at h
      | some t =>
        by_cases hw : now - t < 120
        · exact ⟨hr, t, rfl, hw⟩
        · have hbe : (msg.senderRole == "host") = true := by simp [beq_iff_eq, hr]
          simp [queueMessageEvent, shouldSuppress, hbe, hl, hw] at h
    · have hbe : (msg.senderRole == "host") = false := by
        simp only [beq_eq_false_iff_ne, ne_eq]; exact hr
      simp [queueMessageEvent, shouldSuppress, hbe] at h
  · rintro ⟨hr, t, hl, hw⟩
    have hbe : (msg.senderRole == "host") = true := by simp [beq_iff_eq, hr]
    simp [queueMessageEvent, shouldSuppress, hbe, hl, hw]
  · intro hr
    have hbe : (msg.senderRole == "host") = false := by
      simp only [beq_eq_false_iff_ne, ne_eq]; exact hr
    simp [queueMessageEvent, shouldSuppress, hbe]
  · intro t hl hw
    have h2 : ¬ now - t < 120 := by omega
    by_cases hr : msg.senderRole = "host"
    · have hbe : (msg.senderRole == "host") = true := by simp [beq_iff_eq, hr]
      simp [queueMessageEvent, shouldSuppress, hbe, hl, h2]
    · have hbe : (msg.senderRole == "host") = false := by
        simp only [beq_eq_false_iff_ne, ne_eq]; exact hr
      simp [queueMessageEvent, shouldSuppress, hbe]
  · intro s body tr
    simp only [recordSent]
    exact lookup_setEntry_self _ _ _

/-- Witness for C4: a host body recorded 120 s ago (at or after the window) is
emitted normally. -/
theorem c4_witness :
    queueMessageEvent [("hi", (0 : Int))] 120 "c1" msgHostHi =
      some (Emitted.message "c1" msgHostHi) :=
  (c4_echo_suppression [("hi", (0 : Int))] 120 "c1" msgHostHi).2.2.1 0 rfl (by decide)

/-! ## Claim C5 -/

/-- C5 counterexample: for a conversation with no existing room and one
fetched message (timestamp 10), the sync step emits the room-create event and
the backfill message, but the stored low-water mark for the conversation is
NOT set to the newest message's timestamp — the map has no entry at all,
contradicting the claim that it equals the newest timestamp. -/
theorem c5_counterexample :
    (processConversation initialState convA false (some detailOne) 0).1.lastMessageTime.lookup
      "c1" = Option.none ∧
    (processConversation initialState convA false (some detailOne) 0).2 =
      [Emitted.roomCreate "c1" "(Beach House) - Alice" "Beach House",
       Emitted.message "c1" (mkMsg "m1" "guest" "hello" 10)] := by
  constructor <;> decide

/-- C5 amended: for a conversation with no existing room, the sync step emits
a room-create event followed by every fetched message oldest-to-newest (with
an empty echo cache), but it leaves the low-water-mark map untouched — no
entry is written for the conversation. -/
theorem c5_room_create_backfill (s : SyncState) (conv : Conversation)
    (details : ConversationDetails) (now : Int)
    (hsent : s.sentMessages = [])
    (hdesc : details.messages.Pairwise (fun a b => b.createdAt < a.createdAt)) :
    processConversation s conv false (some details) now =
      ({ s with guestNames := setEntry s.guestNames conv.id conv.guest.name },
        Emitted.roomCreate conv.id (roomNameFor details conv) (propertyNameOf details) ::
          details.messages.reverse.map (Emitted.message conv.id)) ∧
    (processConversation s conv false (some details) now).1.lastMessageTime =
      s.lastMessageTime ∧
    (messageEmissions
      (processConversation s conv false (some details) now).2).Pairwise
      (fun a b => a.2.createdAt < b.2.createdAt) := by
  have hmain : processConversation s conv false (some details) now =
      ({ s with guestNames := setEntry s.guestNames conv.id conv.guest.name },
        Emitted.roomCreate conv.id (roomNameFor details conv) (propertyNameOf details) ::
          details.messages.reverse.map (Emitted.message conv.id)) := by
    simp [processConversation, hsent, filterMap_queue_nil_sent]
  refine ⟨hmain, ?_, ?_⟩
  · rw [hmain]
  · rw [hmain, messageEmissions_roomCreate_cons, messageEmissions_map_message,
      List.pairwise_map, List.pairwise_reverse]
    exact hdesc

/-- Witness for C5 at a concrete conversation with one message. -/
theorem c5_witness :
    processConversation initialState convA false (some detailOne) 0 =
      ({ initialState with
          guestNames := setEntry initialState.guestNames convA.id convA.guest.name },
        Emitted.roomCreate convA.id (roomNameFor detailOne convA) (propertyNameOf detailOne) ::
          detailOne.messages.reverse.map (Emitted.message convA.id)) :=
  (c5_room_create_backfill initialState convA detailOne 0 rfl (by simp [detailOne])).1

/-! ## Claim C6 -/

/-- C6 counterexample: after a sync step whose detail fetch fails (one fetch
attempted), a second sync step for the same conversation with an unchanged
activity timestamp performs ZERO detail fetches — the failed conversation is
not retried, contradicting the claim. -/
theorem c6_counterexample :
    (syncStep initialState inpDetailFail).2.2 = 1 ∧
    (syncStep (syncStep initialState inpDetailFail).1 inpDetailFail).2.2 = 0 := by
  constructor <;> decide

/-- C6 amended: when the detail fetch fails, the sync step emits nothing and
leaves every map except the activity marker unchanged — but the activity
marker has already been advanced to the conversation's timestamp before the
fetch, so a subsequent step with an unchanged activity timestamp performs zero
detail fetches; the conversation is only re-attempted after its activity
timestamp advances or after a manual refresh clears the activity cache. -/
theorem c6_failed_fetch_skip :
    (∀ (s : SyncState) (inp : StepInput),
      skipConversation s inp.conv = false → inp.detail = Option.none →
      syncStep s inp =
        ({ s with conversationLastMsgTime :=
            setEntry s.conversationLastMsgTime inp.conv.id inp.conv.lastMessageAt }, [], 1)) ∧
    (∀ (s : SyncState) (inp inp2 : StepInput),
      inp2.conv.id = inp.conv.id → inp2.conv.lastMessageAt = inp.conv.lastMessageAt →
      (syncStep (syncStep s inp).1 inp2).2.2 = 0) ∧
    (∀ (s : SyncState) (inp : StepInput), inp.detail = Option.none →
      (syncStep (clearActivityCache s) inp).2.2 = 1) := by
  refine ⟨?_, ?_, ?_⟩
  · intro s inp hs hd
    simp [syncStep, hs, hd, processConversation]
  · intro s inp inp2 hid hts
    obtain ⟨c, hc, hle⟩ := syncStep_cache_after s inp
    have hskip : syncStep (syncStep s inp).1 inp2 = ((syncStep s inp).1, [], 0) := by
      refine syncStep_skip _ _ c ?_ ?_
      · rw [hid]; exact hc
      · rw [hts]; omega
    rw [hskip]
  · intro s inp hd
    have hs : skipConversation (clearActivityCache s) inp.conv = false := by
      simp [skipConversation, clearActivityCache, List.lookup]
    simp [syncStep, hs, hd, processConversation]

/-- Witness for C6 at a concrete failed fetch. -/
theorem c6_witness :
    syncStep initialState inpDetailFail = (⟨[], [], [("c1", 20)], []⟩, [], 1) :=
  c6_failed_fetch_skip.1 initialState inpDetailFail rfl rfl

/-! ## Characterization of the existing-room branch -/

theorem mem_of_getLast?_eq {α : Type} (l : List α) (a : α) (h : l.getLast? = some a) :
    a ∈ l := by
  obtain ⟨hne, heq⟩ := List.mem_getLast?_eq_getLast (show a ∈ l.getLast? from h)
  rw [heq]
  exact List.getLast_mem hne

theorem processConversation_true_eq (s : SyncState) (conv : Conversation)
    (details : ConversationDetails) (now : Int) :
    processConversation s conv true (some details) now =
      processExistingRoom
        { s with guestNames := setEntry s.guestNames conv.id conv.guest.name }
        conv details now (roomNameFor details conv) (propertyNameOf details) := rfl

theorem processExistingRoom_some_emissions (s : SyncState) (conv : Conversation)
    (details : ConversationDetails) (now : Int) (rn tp : String) (m : Int)
    (hmark : s.lastMessageTime.lookup conv.id = some m)
    (hsent : s.sentMessages = []) :
    (processExistingRoom s conv details now rn tp).2 =
      Emitted.roomUpdate conv.id rn tp ::
        ((details.messages.filter (fun x => decide (m < x.createdAt))).reverse.map
          (Emitted.message conv.id)) := by
  simp only [processExistingRoom, hmark]
  rw [hsent, existingFold_nil_sent]
  simp [List.filter_reverse]

theorem processExistingRoom_none_emissions (s : SyncState) (conv : Conversation)
    (details : ConversationDetails) (now : Int) (rn tp : String) (oldest : Message)
    (hmark : s.lastMessageTime.lookup conv.id = Option.none)
    (hsent : s.sentMessages = [])
    (holdest : details.messages.getLast? = some oldest) :
    (processExistingRoom s conv details now rn tp).2 =
      Emitted.roomUpdate conv.id rn tp ::
        ((details.messages.filter
            (fun x => decide (oldest.createdAt < x.createdAt))).reverse.map
          (Emitted.message conv.id)) := by
  simp only [processExistingRoom, hmark, holdest]
  rw [hsent, existingFold_nil_sent]
  simp [List.filter_reverse]

theorem processExistingRoom_none_state (s : SyncState) (conv : Conversation)
    (details : ConversationDetails) (now : Int) (rn tp : String)
    (oldest m0 : Message) (rest : List Message)
    (hmark : s.lastMessageTime.lookup conv.id = Option.none)
    (hsent : s.sentMessages = [])
    (holdest : details.messages.getLast? = some oldest)
    (hmsgs : details.messages = m0 :: rest)
    (hdesc : details.messages.Pairwise (fun a b => b.createdAt < a.createdAt)) :
    (processExistingRoom s conv details now rn tp).1.lastMessageTime.lookup conv.id =
      some m0.createdAt := by
  have hhead : ∀ x ∈ details.messages, x.createdAt ≤ m0.createdAt := by
    rw [hmsgs]
    rw [hmsgs] at hdesc
    exact pairwise_desc_head_le m0 rest hdesc
  have hold_le : oldest.createdAt ≤ m0.createdAt :=
    hhead oldest (mem_of_getLast?_eq _ _ holdest)
  have hLeq : details.messages.reverse.foldl
      (fun a x => if a < x.createdAt then x.createdAt else a) oldest.createdAt =
      m0.createdAt := by
    have hL1 : m0.createdAt ≤ details.messages.reverse.foldl
        (fun a x => if a < x.createdAt then x.createdAt else a) oldest.createdAt :=
      foldLatest_mem_le _ _ m0 (List.mem_reverse.2 (by rw [hmsgs]; exact List.mem_cons_self _ _))
    have hL2 : details.messages.reverse.foldl
        (fun a x => if a < x.createdAt then x.createdAt else a) oldest.createdAt ≤
        m0.createdAt := by
      rcases foldLatest_cases details.messages.reverse oldest.createdAt with h | ⟨x, hx, hfx⟩
      · rw [h]; exact hold_le
      · rw [hfx]; exact hhead x (List.mem_reverse.1 hx)
    omega
  simp only [processExistingRoom, hmark, holdest]
  rw [hsent, existingFold_nil_sent]
  dsimp only
  rw [hLeq]
  split
  · rw [lookup_setEntry_self]
  · rw [lookup_setEntry_self]
    have : oldest.createdAt = m0.createdAt := by
      rename_i hcond
      omega
    rw [this]

theorem processExistingRoom_emitted_mem (s : SyncState) (conv : Conversation)
    (details : ConversationDetails) (now : Int) (rn tp : String) (cid : String) (msg : Message)
    (hmem : (cid, msg) ∈ messageEmissions (processExistingRoom s conv details now rn tp).2) :
    cid = conv.id ∧
      ∀ mk, s.lastMessageTime.lookup conv.id = some mk → mk < msg.createdAt := by
  have h2 : Emitted.message cid msg ∈ (processExistingRoom s conv details now rn tp).2 :=
    (mem_messageEmissions _ _ _).1 hmem
  have main : ∀ (thr : Int),
      Emitted.message cid msg ∈
        (Emitted.roomUpdate conv.id rn tp ::
          (details.messages.reverse.foldl
            (existingStep s.sentMessages now conv.id thr) (thr, [])).2) →
      cid = conv.id ∧ thr < msg.createdAt := by
    intro thr hin
    rcases List.mem_cons.1 hin with h3 | h3
    · exact absurd h3 (by simp)
    · rcases existingFold_mem s.sentMessages now conv.id thr details.messages.reverse
        thr [] _ h3 with h4 | ⟨x, hx, hmx, hex⟩
      · simp at h4
      · injection hex with h5 h6
        subst h5
        subst h6
        exact ⟨rfl, hmx⟩
  cases hl : s.lastMessageTime.lookup conv.id with
  | some t =>
    have he : (processExistingRoom s conv details now rn tp).2 =
        Emitted.roomUpdate conv.id rn tp ::
          (details.messages.reverse.foldl
            (existingStep s.sentMessages now conv.id t) (t, [])).2 := by
      simp only [processExistingRoom, hl]
    rw [he] at h2
    obtain ⟨hc, hthr⟩ := main t h2
    refine ⟨hc, ?_⟩
    intro mk hmk
    injection hmk with h7
    omega
  | none =>
    refine ⟨?_, ?_⟩
    · cases hg : details.messages.getLast? with
      | some om =>
        have he : (processExistingRoom s conv details now rn tp).2 =
            Emitted.roomUpdate conv.id rn tp ::
              (details.messages.reverse.foldl
                (existingStep s.sentMessages now conv.id om.createdAt)
                (om.createdAt, [])).2 := by
          simp only [processExistingRoom, hl, hg]
        rw [he] at h2
        exact (main om.createdAt h2).1
      | none =>
        have he : (processExistingRoom s conv details now rn tp).2 =
            Emitted.roomUpdate conv.id rn tp ::
              (details.messages.reverse.foldl
                (existingStep s.sentMessages now conv.id 0) (0, [])).2 := by
          simp only [processExistingRoom, hl, hg]
        rw [he] at h2
        exact (main 0 h2).1
    · intro mk hmk
      cases hmk

theorem processExistingRoom_mark_mono (s : SyncState) (conv : Conversation)
    (details : ConversationDetails) (now : Int) (rn tp : String) (cid0 : String) (mk : Int)
    (h : s.lastMessageTime.lookup cid0 = some mk) :
    ∃ mk2, (processExistingRoom s conv details now rn tp).1.lastMessageTime.lookup cid0 =
      some mk2 ∧ mk ≤ mk2 := by
  cases hl : s.lastMessageTime.lookup conv.id with
  | some t =>
    simp only [processExistingRoom, hl]
    split
    · by_cases hc : cid0 = conv.id
      · subst hc
        rw [lookup_setEntry_self]
        have ht : mk = t := by rw [h] at hl; injection hl
        refine ⟨_, rfl, ?_⟩
        rename_i hcond
        omega
      · rw [lookup_setEntry_ne _ _ _ _ hc]
        exact ⟨mk, h, le_refl _⟩
    · exact ⟨mk, h, le_refl _⟩
  | none =>
    have hc : cid0 ≠ conv.id := by
      intro he
      rw [he, hl] at h
      cases h
    cases hg : details.messages.getLast? with
    | some om =>
      simp only [processExistingRoom, hl, hg]
      split
      · rw [lookup_setEntry_ne _ _ _ _ hc, lookup_setEntry_ne _ _ _ _ hc]
        exact ⟨mk, h, le_refl _⟩
      · rw [lookup_setEntry_ne _ _ _ _ hc]
        exact ⟨mk, h, le_refl _⟩
    | none =>
      simp only [processExistingRoom, hl, hg]
      split
      · rw [lookup_setEntry_ne _ _ _ _ hc]
        exact ⟨mk, h, le_refl _⟩
      · exact ⟨mk, h, le_refl _⟩

theorem processConversation_emission_convID (s : SyncState) (conv : Conversation)
    (re : Bool) (detail : Option ConversationDetails) (now : Int) (cid : String) (msg : Message)
    (hmem : (cid, msg) ∈ messageEmissions (processConversation s conv re detail now).2) :
    cid = conv.id := by
  cases detail with
  | none => simp [processConversation, messageEmissions] at hmem
  | some d =>
    cases re with
    | true =>
      rw [processConversation_true_eq] at hmem
      exact (processExistingRoom_emitted_mem _ _ _ _ _ _ _ _ hmem).1
    | false =>
      have h2 : Emitted.message cid msg ∈ (processConversation s conv false (some d) now).2 :=
        (mem_messageEmissions _ _ _).1 hmem
      have he : (processConversation s conv false (some d) now).2 =
          Emitted.roomCreate conv.id (roomNameFor d conv) (propertyNameOf d) ::
            d.messages.reverse.filterMap (queueMessageEvent s.sentMessages now conv.id) := rfl
      rw [he] at h2
      rcases List.mem_cons.1 h2 with h3 | h3
      · exact absurd h3 (by simp)
      · obtain ⟨a, _, ha2⟩ := List.mem_filterMap.1 h3
        rcases queueMessageEvent_cases s.sentMessages now conv.id a with hq | hq
        · rw [hq] at ha2
          injection ha2 with h5
          injection h5 with h6 h7
          exact h6.symm
        · rw [hq] at ha2
          cases ha2

theorem processConversation_mark_mono (s : SyncState) (conv : Conversation) (re : Bool)
    (detail : Option ConversationDetails) (now : Int) (cid0 : String) (mk : Int)
    (h : s.lastMessageTime.lookup cid0 = some mk) :
    ∃ mk2, (processConversation s conv re detail now).1.lastMessageTime.lookup cid0 =
      some mk2 ∧ mk ≤ mk2 := by
  cases detail with
  | none => exact ⟨mk, h, le_refl _⟩
  | some d =>
    cases re with
    | false => exact ⟨mk, h, le_refl _⟩
    | true =>
      rw [processConversation_true_eq]
      exact processExistingRoom_mark_mono _ _ _ _ _ _ _ _ h

theorem syncStep_mark_mono (s : SyncState) (inp : StepInput) (cid0 : String) (mk : Int)
    (h : s.lastMessageTime.lookup cid0 = some mk) :
    ∃ mk2, (syncStep s inp).1.lastMessageTime.lookup cid0 = some mk2 ∧ mk ≤ mk2 := by
  cases hs : skipConversation s inp.conv with
  | true =>
    rw [show syncStep s inp = (s, [], 0) from by simp [syncStep, hs]]
    exact ⟨mk, h, le_refl _⟩
  | false =>
    have he : (syncStep s inp).1 = (processConversation
        { s with conversationLastMsgTime :=
            setEntry s.conversationLastMsgTime inp.conv.id inp.conv.lastMessageAt }
        inp.conv inp.roomExists inp.detail inp.now).1 := by
      simp [syncStep, hs]
    rw [he]
    exact processConversation_mark_mono _ _ _ _ _ _ _ h

theorem messageEmissions_append (a b : List Emitted) :
    messageEmissions (a ++ b) = messageEmissions a ++ messageEmissions b := by
  simp [messageEmissions]

theorem syncStep_no_stale_emission (s : SyncState) (inp : StepInput) (cid : String)
    (mk : Int) (msg : Message)
    (h : s.lastMessageTime.lookup cid = some mk)
    (hmsg : msg.createdAt ≤ mk)
    (hre : inp.conv.id = cid → inp.roomExists = true) :
    (cid, msg) ∉ messageEmissions (syncStep s inp).2.1 := by
  intro hmem
  cases hs : skipConversation s inp.conv with
  | true =>
    rw [show syncStep s inp = (s, [], 0) from by simp [syncStep, hs]] at hmem
    simp [messageEmissions] at hmem
  | false =>
    have he : (syncStep s inp).2.1 = (processConversation
        { s with conversationLastMsgTime :=
            setEntry s.conversationLastMsgTime inp.conv.id inp.conv.lastMessageAt }
        inp.conv inp.roomExists inp.detail inp.now).2 := by
      simp [syncStep, hs]
    rw [he] at hmem
    by_cases hc : inp.conv.id = cid
    · have hre3 : inp.roomExists = true := hre hc
      rw [hre3] at hmem
      cases hd : inp.detail with
      | none =>
        rw [hd] at hmem
        simp [processConversation, messageEmissions] at hmem
      | some d =>
        rw [hd] at hmem
        rw [processConversation_true_eq] at hmem
        have h5 := processExistingRoom_emitted_mem _ _ _ _ _ _ _ _ hmem
        have h6 := h5.2 mk (by rw [hc]; exact h)
        omega
    · have h5 := processConversation_emission_convID _ _ _ _ _ _ _ hmem
      exact hc h5.symm

theorem runSteps_no_stale_emission (steps : List StepInput) :
    ∀ (s : SyncState) (cid : String) (mk : Int) (msg : Message),
    s.lastMessageTime.lookup cid = some mk → msg.createdAt ≤ mk →
    (∀ inp ∈ steps, inp.conv.id = cid → inp.roomExists = true) →
    (cid, msg) ∉ messageEmissions (runSteps s steps).2.1 := by
  induction steps with
  | nil =>
    intro s cid mk msg h hm hre hmem
    simp [runSteps, messageEmissions] at hmem
  | cons inp rest ih =>
    intro s cid mk msg h hm hre hmem
    have he : (runSteps s (inp :: rest)).2.1 =
        (syncStep s inp).2.1 ++ (runSteps (syncStep s inp).1 rest).2.1 := by
      simp [runSteps]
    rw [he, messageEmissions_append] at hmem
    rcases List.mem_append.1 hmem with h1 | h1
    · exact syncStep_no_stale_emission s inp cid mk msg h hm (hre inp (by simp)) h1
    · obtain ⟨mk2, h2, h3⟩ := syncStep_mark_mono s inp cid mk h
      exact ih _ _ _ _ h2 (by omega) (fun i hi => hre i (by simp [hi])) h1

/-! ## Claim C2 -/

/-- C2: for an existing-room conversation with a stored low-water mark `m` and
a strictly newest-first detail, one sync step emits exactly the messages with
timestamp strictly greater than `m` (with an empty echo cache), in strictly
ascending timestamp order, each exactly once; the stored mark only advances;
and a message with timestamp at most `m` is emitted neither by that step nor
by any later sequence of sync steps in which this conversation's room
continues to exist. -/
theorem c2_delta_emission (s : SyncState) (conv : Conversation)
    (details : ConversationDetails) (now m : Int)
    (hmark : s.lastMessageTime.lookup conv.id = some m)
    (hsent : s.sentMessages = [])
    (hdesc : details.messages.Pairwise (fun a b => b.createdAt < a.createdAt)) :
    messageEmissions (processConversation s conv true (some details) now).2 =
      (details.messages.filter (fun x => decide (m < x.createdAt))).reverse.map
        (fun x => (conv.id, x)) ∧
    (messageEmissions (processConversation s conv true (some details) now).2).Pairwise
      (fun a b => a.2.createdAt < b.2.createdAt) ∧
    (∀ msg ∈ details.messages, m < msg.createdAt →
      ((messageEmissions (processConversation s conv true (some details) now).2).map
        Prod.snd).count msg = 1) ∧
    (∃ m2, (processConversation s conv true (some details) now).1.lastMessageTime.lookup
        conv.id = some m2 ∧ m ≤ m2) ∧
    (∀ msg : Message, msg.createdAt ≤ m →
      (conv.id, msg) ∉ messageEmissions (processConversation s conv true (some details) now).2 ∧
      ∀ steps : List StepInput, (∀ inp ∈ steps, inp.conv.id = conv.id → inp.roomExists = true) →
        (conv.id, msg) ∉ messageEmissions
          (runSteps (processConversation s conv true (some details) now).1 steps).2.1) := by
  have hem : messageEmissions (processConversation s conv true (some details) now).2 =
      (details.messages.filter (fun x => decide (m < x.createdAt))).reverse.map
        (fun x => (conv.id, x)) := by
    rw [processConversation_true_eq]
    rw [processExistingRoom_some_emissions
      { s with guestNames := setEntry s.guestNames conv.id conv.guest.name }
      conv details now (roomNameFor details conv) (propertyNameOf details) m hmark hsent]
    rw [messageEmissions_roomUpdate_cons, messageEmissions_map_message]
  refine ⟨hem, ?_, ?_, ?_, ?_⟩
  · rw [hem, List.pairwise_map, List.pairwise_reverse]
    exact hdesc.filter _
  · intro msg hmem hgt
    have hsnd : (messageEmissions
        (processConversation s conv true (some details) now).2).map Prod.snd =
        (details.messages.filter (fun x => decide (m < x.createdAt))).reverse := by
      rw [hem, List.map_map]
      have : (Prod.snd ∘ fun x : Message => (conv.id, x)) = id := rfl
      rw [this, List.map_id]
    rw [hsnd]
    have hnd : ((details.messages.filter
        (fun x => decide (m < x.createdAt))).reverse).Nodup := by
      refine List.nodup_reverse.2 ((List.Pairwise.filter _) ?_)
      refine hdesc.imp ?_
      intro a b hab he
      rw [he] at hab
      omega
    have hin : msg ∈ (details.messages.filter
        (fun x => decide (m < x.createdAt))).reverse :=
      List.mem_reverse.2 (List.mem_filter.2 ⟨hmem, by simpa using hgt⟩)
    exact List.count_eq_one_of_mem hnd hin
  · exact processConversation_mark_mono s conv true (some details) now conv.id m hmark
  · intro msg hle
    constructor
    · rw [hem]
      intro hmem
      obtain ⟨x, hx, hxe⟩ := List.mem_map.1 hmem
      have hxm : x = msg := congrArg Prod.snd hxe
      have hp := (List.mem_filter.1 (List.mem_reverse.1 hx)).2
      rw [hxm] at hp
      simp only [decide_eq_true_eq] at hp
      omega
    · intro steps hsteps
      obtain ⟨m2, h2, h3⟩ :=
        processConversation_mark_mono s conv true (some details) now conv.id m hmark
      exact runSteps_no_stale_emission steps _ conv.id m2 msg h2 (by omega) hsteps

/-- Witness for C2: with a stored mark of 10 and a fetched detail holding
messages at 20 and 10, the step emits exactly the message at 20. -/
theorem c2_witness :
    messageEmissions (processConversation stateWithMark convA true (some detailTwo) 0).2 =
      [("c1", mkMsg "m2" "guest" "second" 20)] :=
  (c2_delta_emission stateWithMark convA detailTwo 0 10 rfl rfl (by decide)).1

/-! ## Claim C1 -/

/-- C1 counterexample: first time an existing-room conversation with two
historical messages (timestamps 10 and 20, newest first) is seen, the sync
step does NOT emit zero messages — it emits the message with timestamp 20
(every message strictly newer than the oldest) — and the low-water mark ends
the step at the newest timestamp 20, not the oldest timestamp 10. -/
theorem c1_counterexample :
    messageEmissions (processConversation initialState convA true (some detailTwo) 0).2 =
      [("c1", mkMsg "m2" "guest" "second" 20)] ∧
    (processConversation initialState convA true
      (some detailTwo) 0).1.lastMessageTime.lookup "c1" = some 20 := by
  constructor <;> decide

/-- C1 amended: first time an existing-room conversation is seen (no stored
low-water mark), the sync step initializes the mark to the oldest message's
timestamp, emits exactly the messages strictly newer than that oldest
timestamp (zero only when no message is strictly newer, e.g. a single-message
history), and ends the step with the stored mark equal to the newest message's
timestamp. -/
theorem c1_first_sync_existing_room (s : SyncState) (conv : Conversation)
    (details : ConversationDetails) (now : Int) (m0 oldest : Message) (rest : List Message)
    (hmark : s.lastMessageTime.lookup conv.id = Option.none)
    (hsent : s.sentMessages = [])
    (hmsgs : details.messages = m0 :: rest)
    (holdest : details.messages.getLast? = some oldest)
    (hdesc : details.messages.Pairwise (fun a b => b.createdAt < a.createdAt)) :
    messageEmissions (processConversation s conv true (some details) now).2 =
      (details.messages.filter (fun x => decide (oldest.createdAt < x.createdAt))).reverse.map
        (fun x => (conv.id, x)) ∧
    (processConversation s conv true (some details) now).1.lastMessageTime.lookup conv.id =
      some m0.createdAt := by
  constructor
  · rw [processConversation_true_eq]
    rw [processExistingRoom_none_emissions
      { s with guestNames := setEntry s.guestNames conv.id conv.guest.name }
      conv details now (roomNameFor details conv) (propertyNameOf details) oldest hmark hsent
      holdest]
    rw [messageEmissions_roomUpdate_cons, messageEmissions_map_message]
  · rw [processConversation_true_eq]
    exact processExistingRoom_none_state _ _ _ _ _ _ oldest m0 rest hmark hsent holdest
      hmsgs hdesc

/-- Witness for C1 at the two-message detail: the final mark is the newest
timestamp. -/
theorem c1_witness :
    (processConversation initialState convA true
      (some detailTwo) 0).1.lastMessageTime.lookup convA.id =
      some (mkMsg "m2" "guest" "second" 20).createdAt :=
  (c1_first_sync_existing_room initialState convA detailTwo 0
    (mkMsg "m2" "guest" "second" 20) (mkMsg "m1" "guest" "first" 10)
    [mkMsg "m1" "guest" "first" 10] rfl rfl rfl rfl (by decide)).2

/-! ## Claim C7 -/

/-- C7: the normalizer always succeeds with a non-empty ordered part list for
every message and every download/upload behaviour, and when the body is empty
and the attachment is absent, unrecognized, or carries no non-empty
URL-bearing field, the result is exactly one placeholder text part. -/
theorem c7_normalizer_total (download : String → DownloadResult)
    (upload : String → String → UploadResult) (msg : Message) :
    (∃ parts, convertMessage download upload msg = Except.ok parts ∧ parts ≠ []) ∧
    (msg.content = "" → noResolvableAttachment msg.attachment = true →
      convertMessage download upload msg = Except.ok [textPart "(Empty message)"]) := by
  constructor
  · have hgen : ∀ l : List Part,
        (if l.isEmpty then [textPart "(Empty message)"] else l) ≠ [] := by
      intro l
      cases l <;> simp
    exact ⟨_, rfl, hgen _⟩
  · intro h1 h2
    cases ha : msg.attachment with
    | none => simp [convertMessage, ha, h1]
    | other => simp [convertMessage, ha, h1]
    | obj o =>
      have hf : firstNonEmptyStringField o urlFields = Option.none := by
        rw [ha] at h2
        unfold noResolvableAttachment at h2
        dsimp only at h2
        cases hfe : firstNonEmptyStringField o urlFields with
        | none => rfl
        | some v => rw [hfe] at h2; simp at h2
      simp [convertMessage, ha, h1, objAttachmentParts, hf]
    | str st =>
      have hst : st = "" := by
        rw [ha] at h2
        unfold noResolvableAttachment at h2
        simpa using h2
      simp [convertMessage, ha, h1, hst]

/-- Witness for C7: an empty body with a URL-less structured attachment yields
exactly the placeholder part. -/
theorem c7_witness :
    convertMessage dlFail upOk msgNoParts = Except.ok [textPart "(Empty message)"] :=
  (c7_normalizer_total dlFail upOk msgNoParts).2 rfl (by decide)

/-! ## Claim C8 -/

/-- C8 counterexample: a structured attachment with explicit type field
"image/png" whose download responds with Content-Type "image/jpeg" is
delivered with MIME type "image/jpeg" — the response header, not the explicit
type field, decides the MIME type, contradicting the claimed resolution
order. -/
theorem c8_counterexample :
    objAttachmentParts dlJpeg upOk objPng =
      [⟨MsgType.image, "a.bin", some "mxc://example/media1", some "image/jpeg"⟩] ∧
    some "image/jpeg" ≠ some "image/png" := by
  constructor <;> decide

/-- C8 amended: for a structured attachment, a non-empty response Content-Type
always decides the delivered MIME type; the attachment's explicit type field
(with "image" mapped to "image/jpeg" inside `explicitMime`) is used only when
the response Content-Type is empty, with "application/octet-stream" as the
final fallback. -/
theorem c8_mime_priority :
    (∀ (o : List (String × JValue)) (dl : String → DownloadResult)
      (up : String → String → UploadResult) (url ct mxc : String),
      firstNonEmptyStringField o urlFields = some url →
      dl url = DownloadResult.ok ct → ct ≠ "" →
      up (objFilename o url) ct = UploadResult.ok mxc →
      objAttachmentParts dl up o =
        [⟨(if strStartsWith ct "image/" then MsgType.image else MsgType.file),
          objFilename o url, some mxc, some ct⟩]) ∧
    (∀ (o : List (String × JValue)) (dl : String → DownloadResult)
      (up : String → String → UploadResult) (url mxc : String),
      firstNonEmptyStringField o urlFields = some url →
      dl url = DownloadResult.ok "" →
      up (objFilename o url)
        (if explicitMime o == "" then "application/octet-stream" else explicitMime o) =
        UploadResult.ok mxc →
      objAttachmentParts dl up o =
        [⟨(if strStartsWith
              (if explicitMime o == "" then "application/octet-stream" else explicitMime o)
              "image/" then MsgType.image else MsgType.file),
          objFilename o url, some mxc,
          some (if explicitMime o == "" then "application/octet-stream"
            else explicitMime o)⟩]) := by
  constructor
  · intro o dl up url ct mxc hurl hdl hct hup
    simp only [objAttachmentParts, hurl, hdl]
    rw [if_pos hct, hup]
  · intro o dl up url mxc hurl hdl hup
    simp only [objAttachmentParts, hurl, hdl]
    rw [if_neg (by simp), hup]

/-- Witness for C8: the explicit "image/png" type field loses to the
"image/jpeg" response header. -/
theorem c8_witness :
    objAttachmentParts dlJpeg upOk objPng =
      [⟨(if strStartsWith "image/jpeg" "image/" then MsgType.image else MsgType.file),
        objFilename objPng "https://cdn.example.com/files/a.bin",
        some "mxc://example/media1", some "image/jpeg"⟩] :=
  c8_mime_priority.1 objPng dlJpeg upOk "https://cdn.example.com/files/a.bin" "image/jpeg"
    "mxc://example/media1" (by decide) rfl (by decide) rfl

/-! ## Claim C10 -/

/-- C10 counterexample: a URL whose final segment is the bare size token
"xlarge" directly after the extension-bearing segment "photo.png" resolves to
the generic filename "image.jpg", not "photo.png" — the walk-back only fires
for URLs containing ".jpg/" or ".jpeg/". -/
theorem c10_counterexample :
    objFilename objPngSized "https://img.example.com/photos/photo.png/xlarge" = "image.jpg" ∧
    "image.jpg" ≠ "photo.png" := by
  constructor <;> decide

/-- C10 amended: for a structured attachment with no explicit
filename/name/title field whose URL ends in a bare size token one segment
after a ".jpg" filename, the resolved filename is the extension-bearing
segment (the walk-back is restricted to URLs containing ".jpg/" or
".jpeg/"). -/
theorem c10_size_token_filename (o : List (String × JValue))
    (hname : firstNonEmptyStringField o nameFields = Option.none) :
    objFilename o "https://img.example.com/photos/photo.jpg/xlarge" = "photo.jpg" := by
  unfold objFilename
  rw [hname]
  decide

/-- Witness for C10 at a concrete attachment object with no name fields. -/
theorem c10_witness :
    objFilename objJpgSized "https://img.example.com/photos/photo.jpg/xlarge" = "photo.jpg" :=
  c10_size_token_filename objJpgSized (by decide)

/-! ## Decimal rendering lemmas (for the error-code classification) -/

theorem ofDigitsRev_natDigitsRevAux : ∀ (fuel n : Nat), n < fuel →
    ofDigitsRev (natDigitsRevAux fuel n) = n := by
  intro fuel
  induction fuel with
  | zero => intro n h; omega
  | succ f ih =>
    intro n h
    by_cases h10 : n < 10
    · simp [natDigitsRevAux, h10, ofDigitsRev]
    · simp only [natDigitsRevAux, h10, if_false, ofDigitsRev]
      rw [ih (n / 10) (by omega)]
      omega

theorem natDigitsRevAux_lt_ten : ∀ (fuel n : Nat), ∀ d ∈ natDigitsRevAux fuel n, d < 10 := by
  intro fuel
  induction fuel with
  | zero => intro n d hd; simp [natDigitsRevAux] at hd
  | succ f ih =>
    intro n d hd
    by_cases h10 : n < 10
    · simp only [natDigitsRevAux, h10, if_true, List.mem_singleton] at hd
      omega
    · simp only [natDigitsRevAux, h10, if_false, List.mem_cons] at hd
      rcases hd with rfl | hd
      · omega
      · exact ih _ _ hd

theorem digit_char_eq_zero : ∀ d : Nat, d < 10 → digitToChar d = '0' → d = 0 := by decide

theorem digit_char_eq_two : ∀ d : Nat, d < 10 → digitToChar d = '2' → d = 2 := by decide

theorem natDecimal_eq_200 (n : Nat) (h : natDecimal n = "200") : n = 200 := by
  have hdata : (natDigitsRev n).reverse.map digitToChar = ['2', '0', '0'] :=
    congrArg String.data h
  have hrev : (natDigitsRev n).map digitToChar = ['0', '0', '2'] := by
    rw [List.map_reverse] at hdata
    exact (List.reverse_eq_iff).1 hdata
  have hlt : ∀ d ∈ natDigitsRev n, d < 10 := natDigitsRevAux_lt_ten (n + 1) n
  have hval : ofDigitsRev (natDigitsRev n) = n :=
    ofDigitsRev_natDigitsRevAux (n + 1) n (Nat.lt_succ_self n)
  cases hd : natDigitsRev n with
  | nil => rw [hd] at hrev; simp at hrev
  | cons d1 t1 =>
    cases t1 with
    | nil => rw [hd] at hrev; simp at hrev
    | cons d2 t2 =>
      cases t2 with
      | nil => rw [hd] at hrev; simp at hrev
      | cons d3 t3 =>
        cases t3 with
        | cons d4 t4 => rw [hd] at hrev; simp at hrev
        | nil =>
          rw [hd] at hrev
          simp only [List.map_cons, List.map_nil, List.cons.injEq, and_true] at hrev
          obtain ⟨he1, he2, he3⟩ := hrev
          have hm1 : d1 ∈ natDigitsRev n := by rw [hd]; simp
          have hm2 : d2 ∈ natDigitsRev n := by rw [hd]; simp
          have hm3 : d3 ∈ natDigitsRev n := by rw [hd]; simp
          have hd1 : d1 = 0 := digit_char_eq_zero d1 (hlt d1 hm1) he1
          have hd2 : d2 = 0 := digit_char_eq_zero d2 (hlt d2 hm2) he2
          have hd3 : d3 = 2 := digit_char_eq_two d3 (hlt d3 hm3) he3
          rw [hd, hd1, hd2, hd3] at hval
          simp [ofDigitsRev] at hval
          omega

theorem intDecimal_eq_200_iff (i : Int) : intDecimal i = "200" ↔ i = 200 := by
  constructor
  · intro h
    cases i with
    | ofNat m =>
      have hm : m = 200 := natDecimal_eq_200 m h
      rw [hm]
      rfl
    | negSucc m =>
      exfalso
      have h2 := congrArg String.data h
      simp [intDecimal, String.data_append] at h2
  · intro h
    rw [h]
    decide

theorem claim_code_semantic_eq (code : ErrorCode) :
    (errorCodeNonEmpty code && decide (errorCodeStr code ≠ "200")) =
      claimSemanticFailureCode code := by
  cases code with
  | num n =>
    simp only [errorCodeNonEmpty, errorCodeStr, claimSemanticFailureCode, Bool.true_and]
    exact decide_eq_decide.mpr (not_congr (intDecimal_eq_200_iff n))
  | str s => rfl

/-! ## Claim C9 -/

/-- C9: a decoded envelope is classified as a semantic API failure carrying
the envelope's code and message exactly when the error code is present,
non-empty, and not the canonical success code 200 (numeric 200 and string
"200" both succeed, as do an absent or empty code); transport and JSON-decode
failures surface as distinct error classes. -/
theorem c9_error_classification :
    (∀ resp : APIResponse,
      (∀ code, resp.errorCode = some code → claimSemanticFailureCode code = true →
        doRequest (TransportOutcome.response resp) =
          Except.error (RequestError.apiError code resp.errorMsg)) ∧
      (∀ code, resp.errorCode = some code → claimSemanticFailureCode code = false →
        doRequest (TransportOutcome.response resp) = Except.ok resp) ∧
      (resp.errorCode = Option.none →
        doRequest (TransportOutcome.response resp) = Except.ok resp)) ∧
    (∀ m, doRequest (TransportOutcome.transportFail m) =
      Except.error (RequestError.transport m)) ∧
    (∀ m, doRequest (TransportOutcome.decodeFail m) =
      Except.error (RequestError.decode m)) ∧
    (∀ code emsg tmsg, RequestError.apiError code emsg ≠ RequestError.transport tmsg ∧
      RequestError.apiError code emsg ≠ RequestError.decode tmsg) := by
  refine ⟨?_, fun m => rfl, fun m => rfl, ?_⟩
  · intro resp
    refine ⟨?_, ?_, ?_⟩
    · intro code hc hsem
      simp only [doRequest, hc]
      rw [claim_code_semantic_eq, hsem]
      simp
    · intro code hc hsem
      simp only [doRequest, hc]
      rw [claim_code_semantic_eq, hsem]
      simp
    · intro hc
      simp [doRequest, hc]
  · intro code emsg tmsg
    exact ⟨by simp, by simp⟩

/-- Witness for C9: a numeric 404 envelope surfaces as a semantic API error
carrying code and message. -/
theorem c9_witness :
    doRequest (TransportOutcome.response resp404) =
      Except.error (RequestError.apiError (ErrorCode.num 404) "Not Found") :=
  (c9_error_classification.1 resp404).1 (ErrorCode.num 404) rfl (by decide)

end Hostex
